import Mathlib

/-!
Shallow embedding of `src/src-tauri/src/patcher.rs` (mhfg-launcher).

The patcher pipeline is modelled as pure functions over:
  * a file system `FS` (association list from path to content),
  * per-call environments resolving the outcome of each I/O operation
    (network request, `create_dir_all`, `open`, response chunks, cancellation
    observations at the two `select!` points of `download_changed_paths`),
  * an action trace recording sleeps, request awaits, window events
    (`send_event`/`send_error`) and staging-directory operations.

SHA-256 hashing of a local file (`sha2::Sha256` streamed over the open file in
`get_changed_paths`) is abstracted as an oracle `digestOf : String → Option String`:
`some d` means the file at that path opens, `io::copy` succeeds and the hex digest
is `d`; `none` means the file is absent or unreadable (open or copy fails), which
the source treats as "changed".
-/

set_option autoImplicit false

namespace MhfPatcher

/-- Splits a character list at every occurrence of `c`; the pieces do not
contain `c`. Mirrors Rust `str::split` (always at least one piece). -/
def splitOnChar (c : Char) : List Char → List (List Char)
  | [] => [[]]
  | x :: xs =>
    match splitOnChar c xs with
    | [] => [[x]]
    | y :: ys => if x = c then [] :: y :: ys else (x :: y) :: ys

/-- Strips one trailing carriage return, as Rust `lines` does for a line that
was terminated by a newline. -/
def stripTrailingCR (l : List Char) : List Char :=
  match l.getLast? with
  | some c => if c = '\r' then l.dropLast else l
  | none => l

/-- Rust `str::lines`: split on `'\n'`; lines that were terminated by `'\n'`
have one trailing `'\r'` stripped; a trailing newline yields no final empty
line (the final piece is dropped when empty, kept verbatim otherwise). -/
def rustLines (s : String) : List String :=
  let ps := splitOnChar '\n' s.toList
  let frontLines := ps.dropLast.map (fun l => (stripTrailingCR l).asString)
  match ps.getLast? with
  | some [] => frontLines
  | some l => frontLines ++ [l.asString]
  | none => frontLines

/-- Rust `str::split_once` on a character list: split at the first occurrence
of `c`, returning the parts before and after it. -/
def splitOnceChar (c : Char) : List Char → Option (List Char × List Char)
  | [] => none
  | x :: xs =>
    if x = c then some ([], xs)
    else
      match splitOnceChar c xs with
      | none => none
      | some (a, b) => some (x :: a, b)

/-- Rust `str::split_once c`. -/
def splitOnce (s : String) (c : Char) : Option (String × String) :=
  match splitOnceChar c s.toList with
  | none => none
  | some (a, b) => some (a.asString, b.asString)

/-- Rust `str::trim_start_matches '/'`: drop every leading `'/'`. -/
def trimLeadingSlashes (s : String) : String :=
  (s.toList.dropWhile (fun c => c = '/')).asString

/-- Unix `Path::join` for the relative, slash-trimmed paths this pipeline
joins onto folders. -/
def pathJoin (a b : String) : String := a ++ "/" ++ b

/-- Simplified Unix `Path::parent`: `none` for `""` and `"/"`, otherwise the
part before the last `'/'` (`""` when there is no `'/'`). The pipeline only
uses whether a parent exists (`ok_or` in the source). -/
def pathParent (s : String) : Option String :=
  if s = "" ∨ s = "/" then none
  else some ((s.toList.reverse.dropWhile (fun c => ¬ c = '/')).reverse.dropLast).asString

/-- Does `p` start with the string `q`? (kernel-friendly `isPrefixOf`). -/
def strStartsWith (q p : String) : Bool :=
  q.toList.isPrefixOf p.toList

/-- The file system: association list from path to readable content. A path
absent from the list models a file that is absent or unreadable. -/
abbrev FS := List (String × String)

/-- Read a file (Rust `File::open` + read, or `fs::read_to_string`). -/
def FS.read (fs : FS) (p : String) : Option String :=
  (fs.find? (fun kv => kv.1 == p)).map (fun kv => kv.2)

/-- Create or truncate-and-overwrite the file at `p` with content `c`. -/
def FS.write (fs : FS) (p c : String) : FS :=
  (p, c) :: fs.filter (fun kv => !(kv.1 == p))

/-- Delete the file at `p`. -/
def FS.remove (fs : FS) (p : String) : FS :=
  fs.filter (fun kv => !(kv.1 == p))

/-- Rust `fs::remove_dir_all dir`: drop every file strictly below `dir`. -/
def FS.removeDir (fs : FS) (dir : String) : FS :=
  fs.filter (fun kv => !(strStartsWith (dir ++ "/") kv.1))

/-- The `enum State` of `patcher.rs`. -/
inductive State
  | Checking
  | Downloading
  | Patching
  | Done
  | Error
  deriving DecidableEq

/-- The `struct PatcherEvent` of `patcher.rs`: payload of every `"patcher"`
window event. -/
structure PatcherEvent where
  total : Nat
  current : Nat
  state : State
  deriving DecidableEq

/-- One observable step of a patch run: pacing sleeps, awaited HTTP
responses, emitted window events (`send_event` / the log line of
`send_error`), a completed etag write, and the staging-directory
`create_dir_all` / `remove_dir_all` calls with their outcome. -/
inductive Action
  | sleep
  | request (path : String)
  | emit (ev : PatcherEvent)
  | emitLog (msg : String)
  | etagWrite (v : String)
  | mkdirTmp (ok : Bool)
  | removeTmp (ok : Bool)
  deriving DecidableEq

/-- Source `send_error`: emits the log payload and one `Error`-state patcher event. -/
def send_error_actions (msg : String) : List Action :=
  [Action.emitLog msg, Action.emit ⟨0, 0, State.Error⟩]

/-- The `"patcher"`-channel events carried by a trace. -/
def eventsOf (acts : List Action) : List PatcherEvent :=
  acts.filterMap (fun a => match a with | Action.emit ev => some ev | _ => none)

/-- Number of `Error`-state patcher events in a trace. -/
def errorCount (acts : List Action) : Nat :=
  (eventsOf acts).countP (fun ev => ev.state == State.Error)

/-- The `const ETAG_FILE`. -/
def ETAG_FILE : String := "patcher.etag"

/-- Loop body of `get_changed_paths` over the manifest lines: split each line
on the first tab into `(patcher_hash, patcher_path)` (failing on a line with
no tab), strip leading `'/'` from the path, hash the local file at
`game_folder.join(patcher_path)` via the `digestOf` oracle, and keep the path
unless the file was readable with a digest equal to `patcher_hash`. -/
def getChangedPathsGo (digestOf : String → Option String) (game_folder : String) :
    List String → Except String (List String)
  | [] => .ok []
  | line :: rest =>
    match splitOnce line '\t' with
    | none => .error "Patcher server returned invalid data"
    | some (patcher_hash, rawPath) =>
      let patcher_path := trimLeadingSlashes rawPath
      let client_path := pathJoin game_folder patcher_path
      let skip : Bool :=
        match digestOf client_path with
        | some client_hash => patcher_hash == client_hash
        | none => false
      match getChangedPathsGo digestOf game_folder rest with
      | .error e => .error e
      | .ok tail => .ok (if skip then tail else patcher_path :: tail)

/-- Source `get_changed_paths`: diff the manifest text against the local tree; the
`try_collect().or(...)` in the source replaces any line error with the single
message `"Failed to parse patcher server response"`. -/
def get_changed_paths (digestOf : String → Option String) (content game_folder : String) :
    Except String (List String) :=
  match getChangedPathsGo digestOf game_folder (rustLines content) with
  | .ok v => .ok v
  | .error _ => .error "Failed to parse patcher server response"

/-- Environment outcome of one `resp.chunk()` await inside the download loop:
the cancellation branch of the `select!` wins, the chunk read fails, or a
chunk arrives (whose `write_all` succeeds or fails). The list of `ChunkEv`
ends where `resp.chunk()` would return `None`. -/
inductive ChunkEv
  | cancel
  | chunkErr
  | chunk (data : String) (writeOk : Bool)
  deriving DecidableEq

/-- Result of the chunk-streaming loop of one entry. -/
inductive ChunkOutcome
  | done
  | cancelled
  | errored (msg : String)
  deriving DecidableEq

/-- The chunk loop of `download_changed_paths`: append each received chunk to
the (already truncated) staged file until the body ends, the read errors, a
write fails, or cancellation is observed at the `select!`. -/
def runChunks (filePath : String) : List ChunkEv → FS → FS × ChunkOutcome
  | [], fs => (fs, .done)
  | ChunkEv.cancel :: _, fs => (fs, .cancelled)
  | ChunkEv.chunkErr :: _, fs => (fs, .errored "Failed to read patcher response chunk")
  | ChunkEv.chunk d ok :: rest, fs =>
    if ok then
      runChunks filePath rest (FS.write fs filePath (((FS.read fs filePath).getD "") ++ d))
    else (fs, .errored "Failed to write patcher response chunk to file")

/-- Environment of one changed entry inside `download_changed_paths`:
whether the cancellation branch wins the `select!` around the request await,
whether the request itself succeeds, whether `create_dir_all` on the staged
file's parent and the `open` of the staged file succeed, and the resolved
chunk stream. -/
structure EntryEnv where
  cancelAtSend : Bool
  sendOk : Bool
  mkdirOk : Bool
  openOk : Bool
  chunks : List ChunkEv
  deriving DecidableEq

/-- How the body of the download loop left one entry. -/
inductive EntryRes
  | cancelled
  | errored (msg : String)
  | ok
  deriving DecidableEq

/-- One iteration of the loop in `download_changed_paths`: the unconditional
one-second pacing sleep, the `select!` between cancellation and the request,
parent lookup + `create_dir_all`, opening (creating/truncating) the staged
file, and the chunk loop. Emits no events itself (the progress event is
emitted by the loop after a fully written file). -/
def runEntry (e : EntryEnv) (patcher_folder p : String) (fs : FS) :
    List Action × FS × EntryRes :=
  if e.cancelAtSend then ([Action.sleep], fs, .cancelled)
  else if !e.sendOk then ([Action.sleep], fs, .errored "Patch server request failed")
  else
    let patcher_path := pathJoin patcher_folder p
    match pathParent patcher_path with
    | none => ([Action.sleep, Action.request p], fs, .errored "Failed to get temp file parent")
    | some _ =>
      if !e.mkdirOk then
        ([Action.sleep, Action.request p], fs, .errored "Failed to create temp file parent")
      else if !e.openOk then
        ([Action.sleep, Action.request p], fs, .errored "Failed to open temp file")
      else
        match runChunks patcher_path e.chunks (FS.write fs patcher_path "") with
        | (fs2, .cancelled) => ([Action.sleep, Action.request p], fs2, .cancelled)
        | (fs2, .errored m) => ([Action.sleep, Action.request p], fs2, .errored m)
        | (fs2, .done) => ([Action.sleep, Action.request p], fs2, .ok)

/-- Result of `download_changed_paths`: `ok c` is the source's `Ok(())`, with
the ghost flag `c` recording whether the return was the early cancellation
return; `error m` is `Err(m)`. -/
inductive DlResult
  | ok (cancelled : Bool)
  | error (msg : String)
  deriving DecidableEq

/-- The loop of `download_changed_paths` over the remaining changed paths:
`i` indexes into the entry environment, `current` is the progress counter.
After each fully written file the counter is incremented and a
`Downloading` event with the fixed `total` is emitted. -/
def downloadGo (env : Nat → EntryEnv) (patcher_folder : String) (total : Nat) :
    List String → Nat → Nat → FS → List Action × FS × DlResult
  | [], _, _, fs => ([], fs, .ok false)
  | p :: rest, i, current, fs =>
    let r0 := runEntry (env i) patcher_folder p fs
    match r0.2.2 with
    | .cancelled => (r0.1, r0.2.1, .ok true)
    | .errored m => (r0.1, r0.2.1, .error m)
    | .ok =>
      let ev : PatcherEvent := ⟨total, current + 1, State.Downloading⟩
      let r := downloadGo env patcher_folder total rest (i + 1) (current + 1) r0.2.1
      (r0.1 ++ Action.emit ev :: r.1, r.2.1, r.2.2)

/-- Source `download_changed_paths`: `total = changed_paths.len()`, counter starts
at `0`. -/
def download_changed_paths (env : Nat → EntryEnv) (patcher_folder : String)
    (changed_paths : List String) (fs : FS) : List Action × FS × DlResult :=
  downloadGo env patcher_folder changed_paths.length changed_paths 0 0 fs

/-- Source `move_changed_paths`: for each changed path, look up the target parent,
run `create_dir_all` on it (outcome from the indexed environment), then
`fs::rename` the staged file to the target — which fails exactly when the
staged source file does not exist in this file-system model. -/
def move_changed_paths (mkdirOk : Nat → Bool) :
    List String → Nat → String → String → FS → FS × Option String
  | [], _, _, _, fs => (fs, none)
  | p :: rest, i, source_folder, target_folder, fs =>
    let target_path := pathJoin target_folder p
    match pathParent target_path with
    | none => (fs, some "Failed to get target file parent")
    | some _ =>
      if !mkdirOk i then (fs, some "Failed to create target file parent")
      else
        let source_path := pathJoin source_folder p
        match FS.read fs source_path with
        | none => (fs, some "Failed to move patched file to game folder")
        | some c =>
          move_changed_paths mkdirOk rest (i + 1) source_folder target_folder
            ((FS.remove fs source_path).write target_path c)

/-- Source `set_etag`: open (create/truncate) `game_folder/patcher.etag`, then write
the etag bytes; `openOk`/`writeOk` resolve the two fallible I/O steps. A
successful open truncates the file before the write is attempted. -/
def set_etag (openOk writeOk : Bool) (fs : FS) (game_folder etag : String) :
    FS × Option String :=
  if !openOk then (fs, some "Failed to open patcher etag file")
  else
    let p := pathJoin game_folder ETAG_FILE
    let fs1 := FS.write fs p ""
    if !writeOk then (fs1, some "Failed to write to patcher etag file")
    else (FS.write fs1 p etag, none)

/-- Source `get_etag`: `fs::read_to_string` of the marker; any failure (absent or
unreadable file) yields the empty string. -/
def get_etag (fs : FS) (game_folder : String) : String :=
  match FS.read fs (pathJoin game_folder ETAG_FILE) with
  | none => ""
  | some s => s

/-- The `struct PatcherResponse` lives in `server.rs`, which is not part of the
shown sources. Modelled from the spec: the manifest as received by the core —
"raw textual content plus an opaque version token (etag)"; `patcher.rs` uses
exactly the fields `content` and `etag`. -/
structure PatcherResponse where
  content : String
  etag : String
  deriving DecidableEq

/-- Environment of one `patch_internal` run: the local-file digest oracle for
`get_changed_paths`, per-entry download environments, per-entry
`create_dir_all` outcomes for the install phase, and the outcomes of the two
etag-file I/O steps. -/
structure Env where
  digestOf : String → Option String
  dl : Nat → EntryEnv
  moveMkdirOk : Nat → Bool
  etagOpenOk : Bool
  etagWriteOk : Bool

/-- Source `patch_internal`: Checking event, sleep, diff; Downloading event with the
changed count, sleep, download; sleep, Patching event, install, etag write;
sleep, Done event. Any `Err` from a phase is returned as-is (the caller turns
it into `send_error`). The `Action.etagWrite` trace entry records a completed
`set_etag`. -/
def patch_internal (env : Env) (resp : PatcherResponse) (game_folder patcher_folder : String)
    (fs : FS) : List Action × FS × Except String Unit :=
  let acts0 := [Action.emit ⟨0, 0, State.Checking⟩, Action.sleep]
  match get_changed_paths env.digestOf resp.content game_folder with
  | .error e => (acts0, fs, .error e)
  | .ok changed_paths =>
    let acts1 := acts0 ++ [Action.emit ⟨changed_paths.length, 0, State.Downloading⟩, Action.sleep]
    let dl := download_changed_paths env.dl patcher_folder changed_paths fs
    match dl.2.2 with
    | .error e => (acts1 ++ dl.1, dl.2.1, .error e)
    | .ok _ =>
      let acts2 := acts1 ++ dl.1 ++ [Action.sleep, Action.emit ⟨0, 0, State.Patching⟩]
      match move_changed_paths env.moveMkdirOk changed_paths 0 patcher_folder game_folder dl.2.1 with
      | (fs2, some e) => (acts2, fs2, .error e)
      | (fs2, none) =>
        match set_etag env.etagOpenOk env.etagWriteOk fs2 game_folder resp.etag with
        | (fs3, some e) => (acts2, fs3, .error e)
        | (fs3, none) =>
          (acts2 ++ [Action.etagWrite resp.etag, Action.sleep, Action.emit ⟨0, 0, State.Done⟩],
           fs3, .ok ())

/-- Environment of one `patch` run: the `patch_internal` environment plus the
outcomes of `create_dir_all` / `remove_dir_all` on the staging directory. -/
structure PatchEnv where
  env : Env
  mkTmpOk : Bool
  rmTmpOk : Bool

/-- Source `patch`: create `game_folder/tmp` (on failure: `send_error` and return at
once, no removal attempted); run `patch_internal` (on `Err`: `send_error`);
always attempt `remove_dir_all` on the staging directory afterwards (on
failure: a second `send_error`). -/
def patch (penv : PatchEnv) (resp : PatcherResponse) (game_folder : String) (fs : FS) :
    List Action × FS :=
  let tmp_folder := pathJoin game_folder "tmp"
  if !penv.mkTmpOk then
    (Action.mkdirTmp false :: send_error_actions "Failed to create temp patcher directory", fs)
  else
    let r := patch_internal penv.env resp game_folder tmp_folder fs
    let errActs := match r.2.2 with
      | .error e => send_error_actions e
      | .ok _ => []
    let acts1 := Action.mkdirTmp true :: r.1 ++ errActs
    if penv.rmTmpOk then
      (acts1 ++ [Action.removeTmp true], FS.removeDir r.2.1 tmp_folder)
    else
      (acts1 ++ Action.removeTmp false ::
        send_error_actions "Failed to delete temp patcher directory", r.2.1)

/-- Is this chunk event a chunk that is successfully written? -/
def ChunkEv.isWrittenChunk : ChunkEv → Bool
  | ChunkEv.chunk _ ok => ok
  | _ => false

/-- An entry environment under which the download-loop body runs through
without observing cancellation and without any failing step. -/
def EntryEnv.completesOk (e : EntryEnv) : Prop :=
  e.cancelAtSend = false ∧ e.sendOk = true ∧ e.mkdirOk = true ∧ e.openOk = true ∧
    ∀ c ∈ e.chunks, c.isWrittenChunk = true

instance (e : EntryEnv) : Decidable e.completesOk := by
  unfold EntryEnv.completesOk
  infer_instance

/-! ### Helper lemmas -/

theorem FS.read_write (fs : FS) (p c : String) : FS.read (FS.write fs p c) p = some c := by
  simp [FS.read, FS.write, List.find?]

theorem FS.write_write (fs : FS) (p a b : String) :
    FS.write (FS.write fs p a) p b = FS.write fs p b := by
  simp [FS.write, List.filter_filter]

theorem FS.read_write_ne (fs : FS) (p c q : String) (h : q ≠ p) :
    FS.read (FS.write fs p c) q = FS.read fs q := by
  have hq : (p == q) = false := by simp [Ne.symm h]
  induction fs with
  | nil => simp [FS.read, FS.write, List.find?, hq]
  | cons kv rest ih =>
    by_cases hkv : kv.1 = p
    · have h1 : (kv.1 == p) = true := by simp [hkv]
      have h2 : (kv.1 == q) = false := by simp [hkv, Ne.symm h]
      simp only [FS.read, FS.write, List.filter_cons, h1] at ih ⊢
      simp only [Bool.not_true, List.find?, hq, h2] at ih ⊢
      simpa [FS.read, FS.write] using ih
    · have h1 : (kv.1 == p) = false := by simp [hkv]
      simp only [FS.read, FS.write, List.filter_cons, h1] at ih ⊢
      by_cases h2 : kv.1 = q
      · simp [List.find?, hq, h2]
      · have h2' : (kv.1 == q) = false := by simp [h2]
        simp only [Bool.not_false, List.find?, hq, h2'] at ih ⊢
        simpa [FS.read, FS.write] using ih

theorem eventsOf_append (a b : List Action) : eventsOf (a ++ b) = eventsOf a ++ eventsOf b := by
  simp [eventsOf]

theorem splitOnceChar_eq_none (c : Char) (l : List Char) (h : l.contains c = false) :
    splitOnceChar c l = none := by
  induction l with
  | nil => rfl
  | cons x xs ih =>
    simp only [List.contains_cons, Bool.or_eq_false_iff] at h
    have hx : ¬ x = c := by
      intro he
      simp [he] at h
    rw [splitOnceChar, if_neg hx, ih h.2]

/-! ### C7 -/

/-- C7: after a successful `set_etag` with value `v`, `get_etag` returns exactly
`v`; and `get_etag` on a target tree whose marker file is absent or unreadable
(modelled as absent from `FS`) returns the empty string without error. -/
theorem C7_etag_roundtrip (fs : FS) (game_folder v : String)
    (habsent : FS.read fs (pathJoin game_folder ETAG_FILE) = none) :
    (set_etag true true fs game_folder v).2 = none
    ∧ get_etag (set_etag true true fs game_folder v).1 game_folder = v
    ∧ get_etag fs game_folder = "" := by
  refine ⟨rfl, ?_, ?_⟩
  · simp [set_etag, get_etag, FS.write_write, FS.read_write]
  · simp [get_etag, habsent]

/-- Witness for C7 at a concrete, never-patched file system. -/
theorem C7_etag_roundtrip_witness :
    FS.read ([] : FS) (pathJoin "game" ETAG_FILE) = none
    ∧ ((set_etag true true ([] : FS) "game" "v42").2 = none
       ∧ get_etag (set_etag true true ([] : FS) "game" "v42").1 "game" = "v42"
       ∧ get_etag ([] : FS) "game" = "") :=
  ⟨rfl, C7_etag_roundtrip [] "game" "v42" rfl⟩

/-! ### C1 -/

theorem getChangedPathsGo_wf (digestOf : String → Option String) (game_folder : String)
    (ls : List String) (hwf : ∀ l ∈ ls, (splitOnce l '\t').isSome) :
    getChangedPathsGo digestOf game_folder ls =
      .ok (ls.filterMap (fun l =>
        match splitOnce l '\t' with
        | some (h, p) =>
          if digestOf (pathJoin game_folder (trimLeadingSlashes p)) = some h then none
          else some (trimLeadingSlashes p)
        | none => none)) := by
  induction ls with
  | nil => rfl
  | cons line rest ih =>
    obtain ⟨⟨h, p⟩, hsp⟩ :=
      Option.isSome_iff_exists.mp (hwf line (List.mem_cons_self _ _))
    have ih' := ih (fun l hl => hwf l (List.mem_cons_of_mem _ hl))
    rw [getChangedPathsGo, hsp, ih']
    simp only [List.filterMap_cons, hsp]
    rcases hdv : digestOf (pathJoin game_folder (trimLeadingSlashes p)) with _ | ch
    · simp [hdv]
    · by_cases hch : h = ch
      · subst hch
        simp [hdv]
      · have : (some ch = some h) = False := by simp [Ne.symm hch]
        simp [hdv, hch, Ne.symm hch]

/-- C1: for a manifest whose lines each split on a tab into (digest, path), the
returned ChangeSet is exactly the manifest's entries, in manifest line order,
minus those whose local file (at `game_folder` joined with the
leading-slash-stripped path) exists, is readable, and hashes to the manifest
digest (the `digestOf` oracle returning `some` of the manifest hash). -/
theorem C1_changed_set_exact (digestOf : String → Option String) (content game_folder : String)
    (hwf : ∀ l ∈ rustLines content, (splitOnce l '\t').isSome) :
    get_changed_paths digestOf content game_folder =
      .ok ((rustLines content).filterMap (fun l =>
        match splitOnce l '\t' with
        | some (h, p) =>
          if digestOf (pathJoin game_folder (trimLeadingSlashes p)) = some h then none
          else some (trimLeadingSlashes p)
        | none => none)) := by
  rw [get_changed_paths, getChangedPathsGo_wf digestOf game_folder _ hwf]

/-- Witness for C1: manifest with two entries; the local file for the first
hashes to its manifest digest and is excluded, the second is absent and kept. -/
theorem C1_changed_set_exact_witness :
    (∀ l ∈ rustLines "h1\ta\nh2\tb", (splitOnce l '\t').isSome)
    ∧ get_changed_paths (fun q => if q = "g/a" then some "h1" else none) "h1\ta\nh2\tb" "g" =
        .ok ((rustLines "h1\ta\nh2\tb").filterMap (fun l =>
          match splitOnce l '\t' with
          | some (h, p) =>
            if (fun q => if q = "g/a" then some "h1" else none)
                 (pathJoin "g" (trimLeadingSlashes p)) = some h then none
            else some (trimLeadingSlashes p)
          | none => none)) :=
  ⟨by decide, C1_changed_set_exact (fun q => if q = "g/a" then some "h1" else none)
    "h1\ta\nh2\tb" "g" (by decide)⟩

/-! ### C2 -/

/-- C2 counterexample: the line `"a\tb\tc"` consists of three tab-separated
fields, not exactly two, yet `get_changed_paths` accepts the whole manifest,
splitting on the first tab only (the change path keeps the second tab). The
claim "parsing fails for every line that does not consist of exactly two
tab-separated fields" is therefore false on the code. -/
theorem C2_two_tabs_accepted :
    rustLines "a\tb\tc" = ["a\tb\tc"]
    ∧ (splitOnChar '\t' "a\tb\tc".toList).length = 3
    ∧ get_changed_paths (fun _ => none) "a\tb\tc" "g" = .ok ["b\tc"] :=
  ⟨rfl, rfl, rfl⟩

theorem getChangedPathsGo_err (digestOf : String → Option String) (game_folder : String)
    (ls : List String) (h : ∃ l ∈ ls, l.toList.contains '\t' = false) :
    ∃ e, getChangedPathsGo digestOf game_folder ls = .error e := by
  induction ls with
  | nil => simp at h
  | cons line rest ih =>
    by_cases hline : line.toList.contains '\t' = false
    · have hsp : splitOnce line '\t' = none := by
        rw [splitOnce, splitOnceChar_eq_none _ _ hline]
      exact ⟨_, by rw [getChangedPathsGo, hsp]⟩
    · obtain ⟨l, hl, hlc⟩ := h
      rcases List.mem_cons.mp hl with rfl | hl'
      · exact absurd hlc hline
      · obtain ⟨e, he⟩ := ih ⟨l, hl', hlc⟩
        rw [getChangedPathsGo]
        rcases hsp : splitOnce line '\t' with _ | ⟨h1, p1⟩
        · exact ⟨_, rfl⟩
        · rw [he]
          exact ⟨e, rfl⟩

/-- C2 amended: parsing fails — with the single parse-failure message and no
partial ChangeSet — exactly for the malformed lines the code can detect: a
manifest containing a line with no tab character at all. (A line with more
than one tab is accepted, splitting on the first tab; see
`C2_two_tabs_accepted`.) -/
theorem C2_no_tab_fails (digestOf : String → Option String) (content game_folder : String)
    (hbad : ∃ l ∈ rustLines content, l.toList.contains '\t' = false) :
    get_changed_paths digestOf content game_folder =
      .error "Failed to parse patcher server response" := by
  obtain ⟨e, he⟩ := getChangedPathsGo_err digestOf game_folder (rustLines content) hbad
  rw [get_changed_paths, he]

/-- Witness for C2 amended: a manifest whose second line has no tab. -/
theorem C2_no_tab_fails_witness :
    (∃ l ∈ rustLines "h\ta\nbadline", l.toList.contains '\t' = false)
    ∧ get_changed_paths (fun _ => none) "h\ta\nbadline" "g" =
        .error "Failed to parse patcher server response" :=
  ⟨by decide, C2_no_tab_fails (fun _ => none) "h\ta\nbadline" "g" (by decide)⟩

/-! ### Downloader lemmas -/

theorem runEntry_acts (e : EntryEnv) (folder p : String) (fs : FS) :
    (runEntry e folder p fs).1 = [Action.sleep]
    ∨ (runEntry e folder p fs).1 = [Action.sleep, Action.request p] := by
  rw [runEntry]
  cases hc : e.cancelAtSend <;> cases hs : e.sendOk <;>
    rcases hp : pathParent (pathJoin folder p) with _ | par <;>
    cases hm : e.mkdirOk <;> cases ho : e.openOk <;>
    rcases hr : runChunks (pathJoin folder p) e.chunks (FS.write fs (pathJoin folder p) "")
      with ⟨fs2, oc⟩ <;>
    rcases oc with _ | _ | m <;>
    simp [hc, hs, hp, hm, ho, hr]

theorem runEntry_events (e : EntryEnv) (folder p : String) (fs : FS) :
    eventsOf (runEntry e folder p fs).1 = [] := by
  rcases runEntry_acts e folder p fs with h | h <;> rw [h] <;> rfl

theorem runEntry_mem (e : EntryEnv) (folder p : String) (fs : FS) (a : Action)
    (ha : a ∈ (runEntry e folder p fs).1) : a = Action.sleep ∨ a = Action.request p := by
  rcases runEntry_acts e folder p fs with h | h
  · rw [h] at ha
    exact Or.inl (by simpa using ha)
  · rw [h] at ha
    simpa using ha

theorem runEntry_ok_acts (e : EntryEnv) (folder p : String) (fs : FS)
    (h : (runEntry e folder p fs).2.2 = EntryRes.ok) :
    (runEntry e folder p fs).1 = [Action.sleep, Action.request p] := by
  rw [runEntry] at h ⊢
  cases hc : e.cancelAtSend <;> cases hs : e.sendOk <;>
    rcases hp : pathParent (pathJoin folder p) with _ | par <;>
    cases hm : e.mkdirOk <;> cases ho : e.openOk <;>
    rcases hr : runChunks (pathJoin folder p) e.chunks (FS.write fs (pathJoin folder p) "")
      with ⟨fs2, oc⟩ <;>
    rcases oc with _ | _ | m <;>
    simp_all

theorem downloadGo_mem (env : Nat → EntryEnv) (folder : String) (total : Nat) :
    ∀ (paths : List String) (i current : Nat) (fs : FS) (a : Action),
      a ∈ (downloadGo env folder total paths i current fs).1 →
      a = Action.sleep ∨ (∃ p, a = Action.request p)
        ∨ (∃ ev, a = Action.emit ev ∧ ev.state = State.Downloading) := by
  intro paths
  induction paths with
  | nil =>
    intro i current fs a ha
    simp [downloadGo] at ha
  | cons p rest ih =>
    intro i current fs a ha
    rw [downloadGo] at ha
    rcases hre : runEntry (env i) folder p fs with ⟨acts, fs1, res⟩
    rw [hre] at ha
    have hacts : a ∈ acts → a = Action.sleep ∨ a = Action.request p := by
      intro hmem
      exact runEntry_mem (env i) folder p fs a (by rw [hre]; exact hmem)
    cases res with
    | cancelled =>
      simp only [] at ha
      rcases hacts ha with h | h
      · exact Or.inl h
      · exact Or.inr (Or.inl ⟨p, h⟩)
    | errored m =>
      simp only [] at ha
      rcases hacts ha with h | h
      · exact Or.inl h
      · exact Or.inr (Or.inl ⟨p, h⟩)
    | ok =>
      simp only [List.mem_append, List.mem_cons] at ha
      rcases ha with ha | ha | ha
      · rcases hacts ha with h | h
        · exact Or.inl h
        · exact Or.inr (Or.inl ⟨p, h⟩)
      · exact Or.inr (Or.inr ⟨_, ha, rfl⟩)
      · exact ih (i + 1) (current + 1) fs1 a ha

theorem downloadGo_trace_ok (env : Nat → EntryEnv) (folder : String) (total : Nat) :
    ∀ (paths : List String) (i current : Nat) (fs : FS),
      (downloadGo env folder total paths i current fs).2.2 = .ok false →
      (downloadGo env folder total paths i current fs).1 =
        ((List.range paths.length).map (fun j =>
          [Action.sleep, Action.request (paths.getD j ""),
           Action.emit ⟨total, current + j + 1, State.Downloading⟩])).flatten := by
  intro paths
  induction paths with
  | nil =>
    intro i current fs _
    rfl
  | cons p rest ih =>
    intro i current fs h
    rw [downloadGo] at h ⊢
    rcases hre : runEntry (env i) folder p fs with ⟨acts, fs1, res⟩
    rw [hre] at h
    cases res with
    | cancelled => simp at h
    | errored m => simp at h
    | ok =>
      simp only [] at h ⊢
      have hacts : acts = [Action.sleep, Action.request p] := by
        have h2 := runEntry_ok_acts (env i) folder p fs (by rw [hre])
        rw [hre] at h2
        exact h2
      have ih' := ih (i + 1) (current + 1) fs1 h
      rw [hacts, ih']
      rw [List.length_cons, List.range_succ_eq_map]
      simp only [List.map_cons, List.flatten_cons, List.getD_cons_zero, List.map_map]
      have hfun : ∀ j : Nat,
          ((fun j => [Action.sleep, Action.request ((p :: rest).getD j ""),
              Action.emit ⟨total, current + j + 1, State.Downloading⟩]) ∘ Nat.succ) j
            = (fun j => [Action.sleep, Action.request (rest.getD j ""),
                Action.emit ⟨total, current + 1 + j + 1, State.Downloading⟩]) j := by
        intro j
        have harith : current + (j + 1) + 1 = current + 1 + j + 1 := by omega
        simp [Function.comp, harith]
      rw [List.map_congr_left (fun j _ => hfun j)]
      rfl

theorem downloadGo_events_ok (env : Nat → EntryEnv) (folder : String) (total : Nat)
    (paths : List String) (i current : Nat) (fs : FS)
    (h : (downloadGo env folder total paths i current fs).2.2 = .ok false) :
    eventsOf (downloadGo env folder total paths i current fs).1 =
      (List.range paths.length).map (fun j => ⟨total, current + j + 1, State.Downloading⟩) := by
  rw [downloadGo_trace_ok env folder total paths i current fs h]
  induction (List.range paths.length) with
  | nil => rfl
  | cons j rest ihr =>
    simp only [List.map_cons, List.flatten_cons, eventsOf_append, ihr]
    rfl

/-! ### C3 -/

/-- C3: a run of the downloader that is neither cancelled nor stopped by an
error emits exactly one `Downloading` event per entry of the ChangeSet, after
that entry's file is fully written, with `current` strictly increasing
`1..N` and `total = N` in every event. The whole trace is one
sleep–request–event block per entry. -/
theorem C3_download_progress (env : Nat → EntryEnv) (folder : String) (paths : List String)
    (fs : FS) (h : (download_changed_paths env folder paths fs).2.2 = .ok false) :
    eventsOf (download_changed_paths env folder paths fs).1 =
      (List.range paths.length).map (fun j => ⟨paths.length, j + 1, State.Downloading⟩)
    ∧ (download_changed_paths env folder paths fs).1 =
        ((List.range paths.length).map (fun j =>
          [Action.sleep, Action.request (paths.getD j ""),
           Action.emit ⟨paths.length, j + 1, State.Downloading⟩])).flatten := by
  have he := downloadGo_events_ok env folder paths.length paths 0 0 fs h
  have ht := downloadGo_trace_ok env folder paths.length paths 0 0 fs h
  simp only [Nat.zero_add] at he ht
  exact ⟨he, ht⟩

/-- Witness for C3: two entries, both downloaded successfully. -/
theorem C3_download_progress_witness :
    (download_changed_paths (fun _ => ⟨false, true, true, true, [ChunkEv.chunk "d" true]⟩)
        "g/tmp" ["a", "b"] []).2.2 = .ok false
    ∧ (eventsOf (download_changed_paths (fun _ => ⟨false, true, true, true, [ChunkEv.chunk "d" true]⟩)
          "g/tmp" ["a", "b"] []).1 =
        (List.range (["a", "b"] : List String).length).map
          (fun j => ⟨(["a", "b"] : List String).length, j + 1, State.Downloading⟩)
      ∧ (download_changed_paths (fun _ => ⟨false, true, true, true, [ChunkEv.chunk "d" true]⟩)
            "g/tmp" ["a", "b"] []).1 =
          ((List.range (["a", "b"] : List String).length).map (fun j =>
            [Action.sleep, Action.request ((["a", "b"] : List String).getD j ""),
             Action.emit ⟨(["a", "b"] : List String).length, j + 1, State.Downloading⟩])).flatten) :=
  ⟨rfl, C3_download_progress (fun _ => ⟨false, true, true, true, [ChunkEv.chunk "d" true]⟩)
    "g/tmp" ["a", "b"] [] rfl⟩

/-! ### C8 -/

theorem pathJoin_data (a b : String) : (pathJoin a b).data = a.data ++ '/' :: b.data := by
  simp [pathJoin, String.data_append]

theorem pathParent_pathJoin_isSome (folder p : String) (hf : folder ≠ "") :
    (pathParent (pathJoin folder p)).isSome := by
  rcases hd : folder.data with _ | ⟨c, cs⟩
  · exact absurd (String.ext_iff.mpr (by simp [hd])) hf
  · have h1 : pathJoin folder p ≠ "" := by
      intro h
      have := String.ext_iff.mp h
      rw [pathJoin_data, hd] at this
      simp at this
    have h2 : pathJoin folder p ≠ "/" := by
      intro h
      have hthis := String.ext_iff.mp h
      rw [pathJoin_data, hd] at hthis
      have hr : ("/" : String).data = ['/'] := rfl
      rw [hr] at hthis
      have hlen := congrArg List.length hthis
      simp at hlen
    rw [pathParent, if_neg (by simp [h1, h2])]
    rfl

theorem runChunks_done (fp : String) (cs : List ChunkEv) (fs : FS)
    (h : ∀ c ∈ cs, c.isWrittenChunk = true) : (runChunks fp cs fs).2 = ChunkOutcome.done := by
  induction cs generalizing fs with
  | nil => rfl
  | cons c rest ih =>
    cases c with
    | cancel => simpa [ChunkEv.isWrittenChunk] using h _ (List.mem_cons_self _ _)
    | chunkErr => simpa [ChunkEv.isWrittenChunk] using h _ (List.mem_cons_self _ _)
    | chunk d ok =>
      have hok : ok = true := by
        simpa [ChunkEv.isWrittenChunk] using h _ (List.mem_cons_self _ _)
      subst hok
      rw [runChunks, if_pos rfl]
      exact ih _ (fun c hc => h c (List.mem_cons_of_mem _ hc))

theorem runEntry_completes (e : EntryEnv) (folder p : String) (fs : FS)
    (hf : folder ≠ "") (he : e.completesOk) :
    (runEntry e folder p fs).1 = [Action.sleep, Action.request p]
    ∧ (runEntry e folder p fs).2.2 = EntryRes.ok := by
  obtain ⟨h1, h2, h3, h4, h5⟩ := he
  obtain ⟨par, hpar⟩ :=
    Option.isSome_iff_exists.mp (pathParent_pathJoin_isSome folder p hf)
  rcases hchunks : runChunks (pathJoin folder p) e.chunks (FS.write fs (pathJoin folder p) "")
    with ⟨fs2, oc⟩
  have hdone : oc = ChunkOutcome.done := by
    have := runChunks_done (pathJoin folder p) e.chunks (FS.write fs (pathJoin folder p) "") h5
    rw [hchunks] at this
    exact this
  subst hdone
  rw [runEntry]
  simp [h1, h2, h3, h4, hpar, hchunks]

theorem downloadGo_cancel_trace (env : Nat → EntryEnv) (folder : String) (total : Nat)
    (hf : folder ≠ "") :
    ∀ (paths : List String) (k i current : Nat) (fs : FS),
      (∀ j, j < k → (env (i + j)).completesOk) →
      k < paths.length →
      (env (i + k)).cancelAtSend = true →
      (downloadGo env folder total paths i current fs).1 =
        ((List.range k).map (fun j =>
          [Action.sleep, Action.request (paths.getD j ""),
           Action.emit ⟨total, current + j + 1, State.Downloading⟩])).flatten ++ [Action.sleep]
      ∧ (downloadGo env folder total paths i current fs).2.2 = .ok true := by
  intro paths
  induction paths with
  | nil =>
    intro k i current fs _ hk _
    simp at hk
  | cons p rest ih =>
    intro k i current fs hpre hk hc
    cases k with
    | zero =>
      have hcc : (env i).cancelAtSend = true := by simpa using hc
      have hre : runEntry (env i) folder p fs = ([Action.sleep], fs, EntryRes.cancelled) := by
        rw [runEntry]
        simp [hcc]
      rw [downloadGo, hre]
      simp
    | succ k' =>
      have hco : (env i).completesOk := by simpa using hpre 0 (Nat.succ_pos _)
      have hentry := runEntry_completes (env i) folder p fs hf hco
      rw [downloadGo, hentry.2]
      simp only []
      have hpre' : ∀ j, j < k' → (env (i + 1 + j)).completesOk := by
        intro j hj
        have := hpre (j + 1) (by omega)
        have harith : i + (j + 1) = i + 1 + j := by omega
        rwa [harith] at this
      have hc' : (env (i + 1 + k')).cancelAtSend = true := by
        have harith : i + (k' + 1) = i + 1 + k' := by omega
        rwa [harith] at hc
      have hrec := ih k' (i + 1) (current + 1) (runEntry (env i) folder p fs).2.1 hpre'
        (by simpa using hk) hc'
      refine ⟨?_, hrec.2⟩
      rw [hentry.1, hrec.1]
      rw [List.range_succ_eq_map]
      simp only [List.map_cons, List.flatten_cons, List.getD_cons_zero, List.map_map]
      have hfun : ∀ j : Nat,
          ((fun j => [Action.sleep, Action.request ((p :: rest).getD j ""),
              Action.emit ⟨total, current + j + 1, State.Downloading⟩]) ∘ Nat.succ) j
            = (fun j => [Action.sleep, Action.request (rest.getD j ""),
                Action.emit ⟨total, current + 1 + j + 1, State.Downloading⟩]) j := by
        intro j
        have harith : current + (j + 1) + 1 = current + 1 + j + 1 := by omega
        simp [Function.comp, harith]
      rw [List.map_congr_left (fun j _ => hfun j)]
      simp

/-- C8 counterexample: one entry, with the cancellation signal already fired
before its pacing delay starts (`cancelAtSend = true`: the cancellation branch
wins the first `select!` check after the delay). The claim says the delay
"ends early"; but the source's `tokio::time::sleep` is not raced against the
cancellation token, so the run's trace still contains the completed pacing
sleep before stopping: the delay is not cancellable. -/
theorem C8_delay_not_interruptible :
    (download_changed_paths (fun _ => ⟨true, true, true, true, []⟩) "g/tmp" ["a"] []).1
      = [Action.sleep]
    ∧ (download_changed_paths (fun _ => ⟨true, true, true, true, []⟩) "g/tmp" ["a"] []).2.2
        = DlResult.ok true :=
  ⟨rfl, rfl⟩

/-- C8 amended: a fixed one-time-unit pacing delay precedes each entry's
request, but the delay itself is not cancellable: if the cancellation signal
fires before or during the delay of entry `k` (observed at the `select!`
directly after the delay), the full delay still elapses — the trace ends with
that entry's completed sleep — and the run then stops as a non-error early
return without awaiting that entry's response (no `request` action for it). -/
theorem C8_delay_precedes_each_request (env : Nat → EntryEnv) (folder : String)
    (paths : List String) (fs : FS) (k : Nat) (hf : folder ≠ "")
    (hpre : ∀ j, j < k → (env j).completesOk)
    (hk : k < paths.length)
    (hc : (env k).cancelAtSend = true) :
    (download_changed_paths env folder paths fs).1 =
      ((List.range k).map (fun j =>
        [Action.sleep, Action.request (paths.getD j ""),
         Action.emit ⟨paths.length, j + 1, State.Downloading⟩])).flatten ++ [Action.sleep]
    ∧ (download_changed_paths env folder paths fs).2.2 = .ok true := by
  have h := downloadGo_cancel_trace env folder paths.length hf paths k 0 0 fs
    (by simpa using hpre) hk (by simpa using hc)
  simpa using h

/-- Witness for C8 amended: entry 0 downloads fully, cancellation is observed
at entry 1; the trace is entry 0's block followed by entry 1's completed
pacing sleep, and the result is the early `Ok`. -/
theorem C8_delay_precedes_each_request_witness :
    ("g/tmp" : String) ≠ ""
    ∧ (∀ j, j < 1 → ((fun i => if i = 0 then (⟨false, true, true, true, [ChunkEv.chunk "d" true]⟩ : EntryEnv)
          else ⟨true, true, true, true, []⟩) j).completesOk)
    ∧ 1 < (["a", "b"] : List String).length
    ∧ ((fun i => if i = 0 then (⟨false, true, true, true, [ChunkEv.chunk "d" true]⟩ : EntryEnv)
          else ⟨true, true, true, true, []⟩) 1).cancelAtSend = true
    ∧ ((download_changed_paths (fun i => if i = 0 then ⟨false, true, true, true, [ChunkEv.chunk "d" true]⟩
          else ⟨true, true, true, true, []⟩) "g/tmp" ["a", "b"] []).1 =
        ((List.range 1).map (fun j =>
          [Action.sleep, Action.request ((["a", "b"] : List String).getD j ""),
           Action.emit ⟨(["a", "b"] : List String).length, j + 1, State.Downloading⟩])).flatten
          ++ [Action.sleep]
      ∧ (download_changed_paths (fun i => if i = 0 then ⟨false, true, true, true, [ChunkEv.chunk "d" true]⟩
            else ⟨true, true, true, true, []⟩) "g/tmp" ["a", "b"] []).2.2 = .ok true) :=
  ⟨by decide, by decide, by decide, by decide,
    C8_delay_precedes_each_request
      (fun i => if i = 0 then ⟨false, true, true, true, [ChunkEv.chunk "d" true]⟩
        else ⟨true, true, true, true, []⟩)
      "g/tmp" ["a", "b"] [] 1 (by decide) (by decide) (by decide) (by decide)⟩

/-! ### C9 -/

theorem filter_downloading_map (N : Nat) (l : List Nat) :
    (l.map (fun j => (⟨N, j + 1, State.Downloading⟩ : PatcherEvent))).filter
        (fun ev => ev.state == State.Downloading)
      = l.map (fun j => ⟨N, j + 1, State.Downloading⟩) := by
  induction l with
  | nil => rfl
  | cons j rest ih => simp [List.filter_cons, ih]

/-- C9: before any file is fetched, `patch_internal` emits one extra
`Downloading` event with `total` = the ChangeSet length and `current = 0`
(before every `request` action of the trace); so an uncancelled, error-free
run with `N` changed files carries `N + 1` `Downloading`-state events: the
initial `current = 0` event plus one per downloaded file. -/
theorem C9_initial_downloading_event (env : Env) (resp : PatcherResponse)
    (game_folder patcher_folder : String) (fs : FS) (changed : List String)
    (hc : get_changed_paths env.digestOf resp.content game_folder = .ok changed)
    (hdl : (download_changed_paths env.dl patcher_folder changed fs).2.2 = .ok false)
    (hok : (patch_internal env resp game_folder patcher_folder fs).2.2 = .ok ()) :
    (eventsOf (patch_internal env resp game_folder patcher_folder fs).1).filter
        (fun ev => ev.state == State.Downloading)
      = ⟨changed.length, 0, State.Downloading⟩ ::
          (List.range changed.length).map (fun j => ⟨changed.length, j + 1, State.Downloading⟩)
    ∧ ∃ pre post,
        (patch_internal env resp game_folder patcher_folder fs).1
          = pre ++ Action.emit ⟨changed.length, 0, State.Downloading⟩ :: post
        ∧ ∀ q, Action.request q ∉ pre := by
  have hde : eventsOf (download_changed_paths env.dl patcher_folder changed fs).1
      = (List.range changed.length).map (fun j => ⟨changed.length, j + 1, State.Downloading⟩) := by
    rw [download_changed_paths] at hdl ⊢
    have h0 := downloadGo_events_ok env.dl patcher_folder changed.length changed 0 0 fs hdl
    simpa using h0
  rw [patch_internal] at hok ⊢
  rw [hc] at hok ⊢
  simp only [] at hok ⊢
  rw [hdl] at hok ⊢
  simp only [] at hok ⊢
  rcases hmv : move_changed_paths env.moveMkdirOk changed 0 patcher_folder game_folder
      (download_changed_paths env.dl patcher_folder changed fs).2.1 with ⟨fs2, me⟩
  rw [hmv] at hok
  cases me with
  | some e => simp at hok
  | none =>
    simp only [] at hok ⊢
    rcases hse : set_etag env.etagOpenOk env.etagWriteOk fs2 game_folder resp.etag with ⟨fs3, se⟩
    rw [hse] at hok
    cases se with
    | some e => simp at hok
    | none =>
      simp only [] at hok ⊢
      constructor
      · simp only [eventsOf_append, hde]
        simp only [eventsOf, List.filterMap_cons, List.filterMap_nil]
        simp [List.filter_append, List.filter_cons, filter_downloading_map]
      · refine ⟨[Action.emit ⟨0, 0, State.Checking⟩, Action.sleep],
          Action.sleep :: ((download_changed_paths env.dl patcher_folder changed fs).1 ++
            [Action.sleep, Action.emit ⟨0, 0, State.Patching⟩] ++
            [Action.etagWrite resp.etag, Action.sleep, Action.emit ⟨0, 0, State.Done⟩]), ?_, ?_⟩
        · simp
        · intro q
          simp

/-- Witness for C9: one changed file, downloaded successfully, full pipeline
success. -/
theorem C9_initial_downloading_event_witness :
    get_changed_paths (fun _ => none) "h\ta" "g" = .ok ["a"]
    ∧ (download_changed_paths (fun _ => ⟨false, true, true, true, [ChunkEv.chunk "d" true]⟩)
        "g/tmp" ["a"] []).2.2 = .ok false
    ∧ (patch_internal ⟨fun _ => none, fun _ => ⟨false, true, true, true, [ChunkEv.chunk "d" true]⟩,
          fun _ => true, true, true⟩ ⟨"h\ta", "E"⟩ "g" "g/tmp" []).2.2 = .ok ()
    ∧ ((eventsOf (patch_internal ⟨fun _ => none, fun _ => ⟨false, true, true, true, [ChunkEv.chunk "d" true]⟩,
          fun _ => true, true, true⟩ ⟨"h\ta", "E"⟩ "g" "g/tmp" []).1).filter
            (fun ev => ev.state == State.Downloading)
          = ⟨(["a"] : List String).length, 0, State.Downloading⟩ ::
              (List.range (["a"] : List String).length).map
                (fun j => ⟨(["a"] : List String).length, j + 1, State.Downloading⟩)
        ∧ ∃ pre post,
            (patch_internal ⟨fun _ => none, fun _ => ⟨false, true, true, true, [ChunkEv.chunk "d" true]⟩,
              fun _ => true, true, true⟩ ⟨"h\ta", "E"⟩ "g" "g/tmp" []).1
              = pre ++ Action.emit ⟨(["a"] : List String).length, 0, State.Downloading⟩ :: post
            ∧ ∀ q, Action.request q ∉ pre) :=
  ⟨rfl, rfl, rfl,
    C9_initial_downloading_event
      ⟨fun _ => none, fun _ => ⟨false, true, true, true, [ChunkEv.chunk "d" true]⟩,
        fun _ => true, true, true⟩
      ⟨"h\ta", "E"⟩ "g" "g/tmp" [] ["a"] rfl rfl rfl⟩

/-! ### C10 -/

/-- C10: on empty manifest content the run succeeds end to end: the ChangeSet
is empty, the trace carries no per-file `Downloading` event (only the initial
`current = 0` one) and no `request`, the etag marker is overwritten with the
manifest's etag before the `Done` event, and no other file of the target tree
is touched. -/
theorem C10_empty_manifest_run (env : Env) (etag game_folder patcher_folder : String) (fs : FS)
    (ho : env.etagOpenOk = true) (hw : env.etagWriteOk = true) :
    get_changed_paths env.digestOf "" game_folder = .ok []
    ∧ patch_internal env ⟨"", etag⟩ game_folder patcher_folder fs =
        ([Action.emit ⟨0, 0, State.Checking⟩, Action.sleep,
          Action.emit ⟨0, 0, State.Downloading⟩, Action.sleep,
          Action.sleep, Action.emit ⟨0, 0, State.Patching⟩,
          Action.etagWrite etag, Action.sleep, Action.emit ⟨0, 0, State.Done⟩],
         FS.write fs (pathJoin game_folder ETAG_FILE) etag, .ok ())
    ∧ ∀ q, q ≠ pathJoin game_folder ETAG_FILE →
        FS.read (patch_internal env ⟨"", etag⟩ game_folder patcher_folder fs).2.1 q
          = FS.read fs q := by
  have hc : get_changed_paths env.digestOf "" game_folder = .ok [] := rfl
  have hpi : patch_internal env ⟨"", etag⟩ game_folder patcher_folder fs =
      ([Action.emit ⟨0, 0, State.Checking⟩, Action.sleep,
        Action.emit ⟨0, 0, State.Downloading⟩, Action.sleep,
        Action.sleep, Action.emit ⟨0, 0, State.Patching⟩,
        Action.etagWrite etag, Action.sleep, Action.emit ⟨0, 0, State.Done⟩],
       FS.write fs (pathJoin game_folder ETAG_FILE) etag, .ok ()) := by
    rw [patch_internal, hc]
    simp only [download_changed_paths, downloadGo, move_changed_paths, set_etag, ho, hw]
    simp [FS.write_write]
  refine ⟨hc, hpi, ?_⟩
  intro q hq
  rw [hpi]
  exact FS.read_write_ne fs (pathJoin game_folder ETAG_FILE) etag q hq

/-- Witness for C10 at a concrete environment and one pre-existing file. -/
theorem C10_empty_manifest_run_witness :
    ((⟨fun _ => none, fun _ => ⟨false, true, true, true, []⟩, fun _ => true, true, true⟩ : Env).etagOpenOk
        = true)
    ∧ ((⟨fun _ => none, fun _ => ⟨false, true, true, true, []⟩, fun _ => true, true, true⟩ : Env).etagWriteOk
        = true)
    ∧ (get_changed_paths (fun _ => none) "" "g" = .ok []
      ∧ patch_internal ⟨fun _ => none, fun _ => ⟨false, true, true, true, []⟩, fun _ => true, true, true⟩
            ⟨"", "E"⟩ "g" "g/tmp" [("g/f", "old")] =
          ([Action.emit ⟨0, 0, State.Checking⟩, Action.sleep,
            Action.emit ⟨0, 0, State.Downloading⟩, Action.sleep,
            Action.sleep, Action.emit ⟨0, 0, State.Patching⟩,
            Action.etagWrite "E", Action.sleep, Action.emit ⟨0, 0, State.Done⟩],
           FS.write [("g/f", "old")] (pathJoin "g" ETAG_FILE) "E", .ok ())
      ∧ ∀ q, q ≠ pathJoin "g" ETAG_FILE →
          FS.read (patch_internal ⟨fun _ => none, fun _ => ⟨false, true, true, true, []⟩,
              fun _ => true, true, true⟩ ⟨"", "E"⟩ "g" "g/tmp" [("g/f", "old")]).2.1 q
            = FS.read [("g/f", "old")] q) :=
  ⟨rfl, rfl,
    C10_empty_manifest_run
      ⟨fun _ => none, fun _ => ⟨false, true, true, true, []⟩, fun _ => true, true, true⟩
      "E" "g" "g/tmp" [("g/f", "old")] rfl rfl⟩

/-! ### Error-event counting and staging-cleanup lemmas -/

theorem eventsOf_mem (l : List Action) (ev : PatcherEvent) (h : ev ∈ eventsOf l) :
    Action.emit ev ∈ l := by
  rw [eventsOf, List.mem_filterMap] at h
  obtain ⟨a, ha, hfa⟩ := h
  rcases a with _ | p | ev2 | m | v | bb | bb <;> simp at hfa
  rw [hfa] at ha
  exact ha

theorem errorCount_eq_zero_of (l : List Action)
    (h : ∀ ev ∈ eventsOf l, ev.state ≠ State.Error) : errorCount l = 0 := by
  rw [errorCount, List.countP_eq_zero]
  intro ev hev
  simpa using h ev hev

theorem errorCount_append (a b : List Action) :
    errorCount (a ++ b) = errorCount a + errorCount b := by
  simp [errorCount, eventsOf_append, List.countP_append]

theorem errorCount_nil : errorCount [] = 0 := rfl

theorem errorCount_sleep_cons (l : List Action) :
    errorCount (Action.sleep :: l) = errorCount l := by
  simp [errorCount, eventsOf]

theorem errorCount_request_cons (p : String) (l : List Action) :
    errorCount (Action.request p :: l) = errorCount l := by
  simp [errorCount, eventsOf]

theorem errorCount_emitLog_cons (m : String) (l : List Action) :
    errorCount (Action.emitLog m :: l) = errorCount l := by
  simp [errorCount, eventsOf]

theorem errorCount_etagWrite_cons (v : String) (l : List Action) :
    errorCount (Action.etagWrite v :: l) = errorCount l := by
  simp [errorCount, eventsOf]

theorem errorCount_emit_cons (ev : PatcherEvent) (l : List Action) :
    errorCount (Action.emit ev :: l)
      = errorCount l + (if ev.state = State.Error then 1 else 0) := by
  simp [errorCount, eventsOf, List.countP_cons]

theorem downloadGo_errorCount (env : Nat → EntryEnv) (folder : String) (total : Nat)
    (paths : List String) (i current : Nat) (fs : FS) :
    errorCount (downloadGo env folder total paths i current fs).1 = 0 := by
  apply errorCount_eq_zero_of
  intro ev hev
  rcases downloadGo_mem env folder total paths i current fs _ (eventsOf_mem _ _ hev)
    with h | ⟨p, h⟩ | ⟨ev2, h, hst⟩
  · simp at h
  · simp at h
  · have : ev = ev2 := by
      injection h
    rw [this, hst]
    simp

theorem download_errorCount (env : Nat → EntryEnv) (folder : String)
    (paths : List String) (fs : FS) :
    errorCount (download_changed_paths env folder paths fs).1 = 0 := by
  rw [download_changed_paths]
  exact downloadGo_errorCount env folder paths.length paths 0 0 fs

theorem download_no_removeTmp (env : Nat → EntryEnv) (folder : String)
    (paths : List String) (fs : FS) (b : Bool) :
    Action.removeTmp b ∉ (download_changed_paths env folder paths fs).1 := by
  intro hx
  rw [download_changed_paths] at hx
  rcases downloadGo_mem env folder paths.length paths 0 0 fs _ hx
    with h | ⟨p, h⟩ | ⟨ev, h, _⟩ <;> simp at h

theorem patch_internal_errorCount (env : Env) (resp : PatcherResponse)
    (game_folder patcher_folder : String) (fs : FS) :
    errorCount (patch_internal env resp game_folder patcher_folder fs).1 = 0 := by
  rw [patch_internal]
  rcases hc : get_changed_paths env.digestOf resp.content game_folder with e | changed
  · rfl
  · simp only []
    have hdl0 := download_errorCount env.dl patcher_folder changed fs
    rcases hres : (download_changed_paths env.dl patcher_folder changed fs).2.2 with c | m
    · simp only []
      rcases hmv : move_changed_paths env.moveMkdirOk changed 0 patcher_folder game_folder
          (download_changed_paths env.dl patcher_folder changed fs).2.1 with ⟨fs2, me⟩
      cases me with
      | some e =>
        simp only []
        simp [errorCount_append, errorCount_emit_cons, errorCount_sleep_cons, errorCount_nil, hdl0]
      | none =>
        simp only []
        rcases hse : set_etag env.etagOpenOk env.etagWriteOk fs2 game_folder resp.etag
          with ⟨fs3, se⟩
        cases se with
        | some e =>
          simp only []
          simp [errorCount_append, errorCount_emit_cons, errorCount_sleep_cons, errorCount_nil, hdl0]
        | none =>
          simp only []
          simp [errorCount_append, errorCount_emit_cons, errorCount_sleep_cons,
            errorCount_etagWrite_cons, errorCount_nil, hdl0]
    · simp only []
      simp [errorCount_append, errorCount_emit_cons, errorCount_sleep_cons, errorCount_nil, hdl0]

theorem patch_internal_no_removeTmp (env : Env) (resp : PatcherResponse)
    (game_folder patcher_folder : String) (fs : FS) (b : Bool) :
    Action.removeTmp b ∉ (patch_internal env resp game_folder patcher_folder fs).1 := by
  intro hmem
  rw [patch_internal] at hmem
  rcases hc : get_changed_paths env.digestOf resp.content game_folder with e | changed
  · rw [hc] at hmem
    simp at hmem
  · rw [hc] at hmem
    simp only [] at hmem
    have hdl := download_no_removeTmp env.dl patcher_folder changed fs b
    rcases hres : (download_changed_paths env.dl patcher_folder changed fs).2.2 with c | m
    · rw [hres] at hmem
      simp only [] at hmem
      rcases hmv : move_changed_paths env.moveMkdirOk changed 0 patcher_folder game_folder
          (download_changed_paths env.dl patcher_folder changed fs).2.1 with ⟨fs2, me⟩
      rw [hmv] at hmem
      cases me with
      | some e =>
        simp at hmem
        exact hdl hmem
      | none =>
        simp only [] at hmem
        rcases hse : set_etag env.etagOpenOk env.etagWriteOk fs2 game_folder resp.etag
          with ⟨fs3, se⟩
        rw [hse] at hmem
        cases se with
        | some e =>
          simp at hmem
          exact hdl hmem
        | none =>
          simp at hmem
          exact hdl hmem
    · rw [hres] at hmem
      simp at hmem
      exact hdl hmem

theorem errorCount_mkdirTmp_cons (b : Bool) (l : List Action) :
    errorCount (Action.mkdirTmp b :: l) = errorCount l := by
  simp [errorCount, eventsOf]

theorem errorCount_removeTmp_cons (b : Bool) (l : List Action) :
    errorCount (Action.removeTmp b :: l) = errorCount l := by
  simp [errorCount, eventsOf]

/-! ### C5 -/

/-- C5: whenever the staging directory is created successfully, `patch`
invokes the staging-directory removal exactly once, after the whole pipeline
(and its error reporting), regardless of success, failure, or cancellation;
when staging-directory creation fails, the run stops at once with the
creation error (one `Error` event), the file system is untouched, and no
removal is attempted. -/
theorem C5_staging_cleanup (penv : PatchEnv) (resp : PatcherResponse) (game_folder : String)
    (fs : FS) :
    (penv.mkTmpOk = true →
      ∃ mid t,
        (patch penv resp game_folder fs).1
          = Action.mkdirTmp true :: (mid ++ Action.removeTmp penv.rmTmpOk :: t)
        ∧ (∀ b, Action.removeTmp b ∉ mid)
        ∧ (∀ b, Action.removeTmp b ∉ t))
    ∧ (penv.mkTmpOk = false →
        (patch penv resp game_folder fs).1
          = [Action.mkdirTmp false, Action.emitLog "Failed to create temp patcher directory",
             Action.emit ⟨0, 0, State.Error⟩]
        ∧ (patch penv resp game_folder fs).2 = fs) := by
  constructor
  · intro hmk
    rw [patch, hmk]
    simp only [Bool.not_true, Bool.false_eq_true, if_false]
    have hnr := patch_internal_no_removeTmp penv.env resp game_folder
      (pathJoin game_folder "tmp") fs
    refine ⟨(patch_internal penv.env resp game_folder (pathJoin game_folder "tmp") fs).1 ++
        (match (patch_internal penv.env resp game_folder (pathJoin game_folder "tmp") fs).2.2 with
          | .error e => send_error_actions e
          | .ok _ => []),
      (if penv.rmTmpOk then []
        else send_error_actions "Failed to delete temp patcher directory"), ?_, ?_, ?_⟩
    · cases hrm : penv.rmTmpOk <;>
        rcases hres : (patch_internal penv.env resp game_folder (pathJoin game_folder "tmp")
          fs).2.2 with e | u <;>
        simp [send_error_actions]
    · intro b
      intro hb
      rcases List.mem_append.mp hb with hb | hb
      · exact hnr b hb
      · rcases hres : (patch_internal penv.env resp game_folder (pathJoin game_folder "tmp")
          fs).2.2 with e | u <;> rw [hres] at hb <;> simp [send_error_actions] at hb
    · intro b
      cases hrm : penv.rmTmpOk <;> simp [send_error_actions]
  · intro hmk
    rw [patch, hmk]
    simp [send_error_actions]

/-- Witness for C5 (staging creation succeeds, empty manifest). -/
theorem C5_staging_cleanup_witness :
    ∃ mid t,
      (patch ⟨⟨fun _ => none, fun _ => ⟨false, true, true, true, []⟩, fun _ => true, true, true⟩,
          true, true⟩ ⟨"", "e"⟩ "g" []).1
        = Action.mkdirTmp true :: (mid ++ Action.removeTmp true :: t)
      ∧ (∀ b, Action.removeTmp b ∉ mid)
      ∧ (∀ b, Action.removeTmp b ∉ t) :=
  (C5_staging_cleanup
    ⟨⟨fun _ => none, fun _ => ⟨false, true, true, true, []⟩, fun _ => true, true, true⟩,
      true, true⟩ ⟨"", "e"⟩ "g" []).1 rfl

/-! ### C6 -/

/-- C6 counterexample: a run that gets past staging-directory creation
(trace starts with a successful `mkdirTmp`) but whose manifest is malformed
and whose staging-directory removal fails observes two `Error` events — one
from the pipeline failure, one from the failed cleanup — refuting "never more
than one Error event per run". -/
theorem C6_two_error_events :
    ((patch ⟨⟨fun _ => none, fun _ => ⟨false, true, true, true, []⟩, fun _ => true, true, true⟩,
        true, false⟩ ⟨"badline", "e"⟩ "g" []).1.head? = some (Action.mkdirTmp true))
    ∧ errorCount (patch ⟨⟨fun _ => none, fun _ => ⟨false, true, true, true, []⟩,
        fun _ => true, true, true⟩, true, false⟩ ⟨"badline", "e"⟩ "g" []).1 = 2 :=
  ⟨rfl, rfl⟩

/-- C6 amended: in a run that gets past staging-directory creation, the
number of `Error` events is exactly one per failing step: one if the pipeline
(`patch_internal`) fails, plus one if the staging-directory removal fails —
so zero on full success, up to two when both fail; a `Done`-terminated
pipeline with successful cleanup emits no `Error` event. -/
theorem C6_error_event_count (penv : PatchEnv) (resp : PatcherResponse) (game_folder : String)
    (fs : FS) (hmk : penv.mkTmpOk = true) :
    errorCount (patch penv resp game_folder fs).1 =
      (match (patch_internal penv.env resp game_folder (pathJoin game_folder "tmp") fs).2.2 with
        | .error _ => 1
        | .ok _ => 0)
      + (if penv.rmTmpOk then 0 else 1) := by
  rw [patch, hmk]
  simp only [Bool.not_true, Bool.false_eq_true, if_false]
  have h0 := patch_internal_errorCount penv.env resp game_folder (pathJoin game_folder "tmp") fs
  rcases hres : (patch_internal penv.env resp game_folder (pathJoin game_folder "tmp") fs).2.2
    with e | u <;>
    cases hrm : penv.rmTmpOk <;>
    simp [errorCount_append, errorCount_mkdirTmp_cons, errorCount_removeTmp_cons,
      errorCount_emitLog_cons, errorCount_emit_cons, errorCount_nil, h0, send_error_actions]

/-- Witness for C6 amended: pipeline fails (malformed manifest), removal
succeeds — exactly one `Error` event. -/
theorem C6_error_event_count_witness :
    ((⟨⟨fun _ => none, fun _ => ⟨false, true, true, true, []⟩, fun _ => true, true, true⟩,
        true, true⟩ : PatchEnv).mkTmpOk = true)
    ∧ errorCount (patch ⟨⟨fun _ => none, fun _ => ⟨false, true, true, true, []⟩,
          fun _ => true, true, true⟩, true, true⟩ ⟨"badline", "e"⟩ "g" []).1 =
        (match (patch_internal (⟨fun _ => none, fun _ => ⟨false, true, true, true, []⟩,
            fun _ => true, true, true⟩ : Env) ⟨"badline", "e"⟩ "g" (pathJoin "g" "tmp") []).2.2 with
          | .error _ => 1
          | .ok _ => 0)
        + (if true then 0 else 1) :=
  ⟨rfl, C6_error_event_count
    ⟨⟨fun _ => none, fun _ => ⟨false, true, true, true, []⟩, fun _ => true, true, true⟩,
      true, true⟩ ⟨"badline", "e"⟩ "g" [] rfl⟩

/-! ### C4 -/

/-- C4 evaluated at the failing input: a one-entry ChangeSet whose download is
cancelled at the request `select!` (the downloader returns the early `Ok`),
yet the run emits one `Error` event: `patch_internal` cannot distinguish the
cancelled early return from completion, proceeds into the install phase, and
`fs::rename` of the never-staged file fails ("Failed to move patched file to
game folder"). This contradicts the claim (and spec), which promise zero
`Error` events on cancellation: the claim is right and the code is wrong. -/
theorem C4_cancel_then_install_error :
    get_changed_paths (fun _ => none) "h\ta" "g" = .ok ["a"]
    ∧ (download_changed_paths (fun _ => ⟨true, true, true, true, []⟩) (pathJoin "g" "tmp")
        ["a"] []).2.2 = DlResult.ok true
    ∧ errorCount (patch ⟨⟨fun _ => none, fun _ => ⟨true, true, true, true, []⟩,
          fun _ => true, true, true⟩, true, true⟩ ⟨"h\ta", "e"⟩ "g" []).1 = 1
    ∧ Action.emitLog "Failed to move patched file to game folder"
        ∈ (patch ⟨⟨fun _ => none, fun _ => ⟨true, true, true, true, []⟩,
            fun _ => true, true, true⟩, true, true⟩ ⟨"h\ta", "e"⟩ "g" []).1 :=
  ⟨rfl, rfl, rfl, by decide⟩

end MhfPatcher
